import Mathlib

/-!
# Verification of the neuralforecast TFT / SOFTS forward-pass core

Shallow embedding of `src/neuralforecast/models/tft.py` and
`src/neuralforecast/models/softs.py`. Tensors are curried functions over
`Fin`-indexed axes with real-valued entries; float arithmetic is idealised
as real arithmetic. Leading batch/time axes on which an operation acts
pointwise are dropped where the source broadcasts over them; the remaining
axes follow the source shapes. All modules are embedded in eval mode
(`nn.Dropout` is the identity there), matching the claims under scrutiny.
-/

set_option maxHeartbeats 1000000

open scoped BigOperators

noncomputable section

namespace NF

/-- `torch.nn.Linear(inDim, outDim)`: weight `[outDim, inDim]` and bias. -/
structure LinearP (inDim outDim : ℕ) where
  weight : Fin outDim → Fin inDim → ℝ
  bias : Fin outDim → ℝ

/-- `y = x Wᵀ + b`. -/
def LinearP.apply {inDim outDim : ℕ} (l : LinearP inDim outDim)
    (x : Fin inDim → ℝ) : Fin outDim → ℝ :=
  fun o => (∑ i, l.weight o i * x i) + l.bias o

/-- `torch.nn.Linear(inDim, outDim, bias=False)`. -/
structure LinearNB (inDim outDim : ℕ) where
  weight : Fin outDim → Fin inDim → ℝ

/-- `y = x Wᵀ`. -/
def LinearNB.apply {inDim outDim : ℕ} (l : LinearNB inDim outDim)
    (x : Fin inDim → ℝ) : Fin outDim → ℝ :=
  fun o => ∑ i, l.weight o i * x i

/-- `torch.nn.functional.elu` with the default `alpha = 1`. -/
def elu (x : ℝ) : ℝ := if 0 ≤ x then x else Real.exp x - 1

/-- `torch.sigmoid`. -/
def sigmoid (x : ℝ) : ℝ := 1 / (1 + Real.exp (-x))

/-- `torch.nn.functional.softmax` along a `Fin n` axis. -/
def softmax {n : ℕ} (v : Fin n → ℝ) : Fin n → ℝ :=
  fun i => Real.exp (v i) / ∑ j, Real.exp (v j)

/-- Learnable elementwise-affine parameters of a `torch.nn.LayerNorm`
(initialised to `γ = 1`, `β = 0`; kept symbolic here). -/
structure LNP (n : ℕ) where
  gamma : Fin n → ℝ
  beta : Fin n → ℝ

/-- `torch.nn.LayerNorm` over the last axis with the given `eps`. -/
def layerNorm {n : ℕ} (eps : ℝ) (p : LNP n) (x : Fin n → ℝ) : Fin n → ℝ :=
  fun i =>
    let mu := (∑ j, x j) / n
    let v := (∑ j, (x j - mu) ^ 2) / n
    (x i - mu) / Real.sqrt (v + eps) * p.gamma i + p.beta i

/-- `GLU` module of tft.py: a `Linear(hidden_size, output_size * 2)` whose
output is split in half by `F.glu`, first half gated by the sigmoid of the
second half. -/
structure GLU (hiddenSize outDim : ℕ) where
  lin : LinearP hiddenSize (outDim + outDim)

/-- `GLU.forward`. -/
def GLU.forward {hd od : ℕ} (g : GLU hd od) (x : Fin hd → ℝ) : Fin od → ℝ :=
  fun i =>
    let y := g.lin.apply x
    y (Fin.castAdd od i) * sigmoid (y (Fin.natAdd od i))

/-- Effective output size of a `GRN`: `output_size if output_size else hidden_size`. -/
def GRNout (hiddenSize : ℕ) : Option ℕ → ℕ
  | none => hiddenSize
  | some o => o

/-- `GRN.out_proj`: a `Linear(input_size, output_size)` when `output_size`
is given, absent (`None`) otherwise. -/
def GRNproj (inputSize : ℕ) : Option ℕ → Type
  | none => Unit
  | some o => LinearP inputSize o

/-- `GRN` of tft.py (Gated Residual Network). `lin_c` is the
`context_hidden_size → hidden_size` bias-free context map; in every
instantiation in this repository `context_hidden_size = hidden_size`.
The qualifier on `out_proj` mirrors
`nn.Linear(input_size, output_size) if output_size else None`. -/
structure GRN (inputSize hiddenSize ctxSize : ℕ) (outputSize : Option ℕ) where
  lin_a : LinearP inputSize hiddenSize
  lin_c : LinearNB ctxSize hiddenSize
  lin_i : LinearP hiddenSize hiddenSize
  glu : GLU hiddenSize (GRNout hiddenSize outputSize)
  out_proj : GRNproj inputSize outputSize
  ln : LNP (GRNout hiddenSize outputSize)

/-- The `MaybeLayerNorm` of tft.py: identity when
`output_size and output_size == 1`, else `LayerNorm(output_size if
output_size else hidden_size, eps=1e-3)`. -/
def maybeLayerNorm {hiddenSize : ℕ} (os : Option ℕ)
    (p : LNP (GRNout hiddenSize os)) (x : Fin (GRNout hiddenSize os) → ℝ) :
    Fin (GRNout hiddenSize os) → ℝ :=
  if os = some 1 then x else layerNorm 1e-3 p x

/-- Residual branch of `GRN.forward`:
`y = a if not self.out_proj else self.out_proj(a)`. When `out_proj` is
absent the addition `x + y` requires `input_size = hidden_size` (a PyTorch
broadcast of equal shapes), recorded as hypothesis `hsh`. -/
def GRN.residualBranch {inputSize hiddenSize ctxSize : ℕ} :
    (os : Option ℕ) → GRN inputSize hiddenSize ctxSize os →
    (os = none → inputSize = hiddenSize) → (Fin inputSize → ℝ) →
    Fin (GRNout hiddenSize os) → ℝ
  | none, _, hsh, a => fun i => a (Fin.cast (hsh rfl).symm i)
  | some _, g, _, a => g.out_proj.apply a

/-- `GRN.forward` in eval mode (dropout = identity). -/
def GRN.forward {inputSize hiddenSize ctxSize : ℕ} {os : Option ℕ}
    (g : GRN inputSize hiddenSize ctxSize os)
    (hsh : os = none → inputSize = hiddenSize)
    (a : Fin inputSize → ℝ) (c : Option (Fin ctxSize → ℝ)) :
    Fin (GRNout hiddenSize os) → ℝ :=
  let x1 := g.lin_a.apply a
  let x2 := match c with
    | none => x1
    | some cv => fun j => x1 j + g.lin_c.apply cv j
  let x3 := fun j => elu (x2 j)
  let x4 := g.lin_i.apply x3
  let x5 := g.glu.forward x4
  let y := GRN.residualBranch os g hsh a
  maybeLayerNorm os g.ln (fun i => x5 i + y i)

/-- Row-major flattening of the last two axes `[N, H] → [N*H]`
(`x.reshape(*x.shape[:-2], -1)` in `VariableSelectionNetwork.forward`),
presented with the `hidden_size * num_inputs` extent used by `joint_grn`. -/
def flattenVars {N H : ℕ} (x : Fin N → Fin H → ℝ) : Fin (H * N) → ℝ :=
  fun j =>
    let p := finProdFinEquiv.symm (Fin.cast (Nat.mul_comm H N) j)
    x p.1 p.2

/-- `VariableSelectionNetwork` of tft.py. -/
structure VSN (hiddenSize numInputs : ℕ) where
  joint_grn : GRN (hiddenSize * numInputs) hiddenSize hiddenSize (some numInputs)
  var_grns : Fin numInputs → GRN hiddenSize hiddenSize hiddenSize none

/-- `VariableSelectionNetwork.forward` (per batch/time element): returns
the fused variable context and the softmax selection weights. -/
def VSN.forward {H N : ℕ} (v : VSN H N) (x : Fin N → Fin H → ℝ)
    (context : Option (Fin H → ℝ)) : (Fin H → ℝ) × (Fin N → ℝ) :=
  let grn_outputs := v.joint_grn.forward (fun h => nomatch h) (flattenVars x) context
  let sparse_weights := softmax grn_outputs
  let transformed : Fin N → Fin H → ℝ :=
    fun i => (v.var_grns i).forward (fun _ => rfl) (x i) none
  let variable_ctx : Fin H → ℝ := fun h => ∑ i, transformed i h * sparse_weights i
  (variable_ctx, sparse_weights)

/-! Concrete all-zero parameter builders, used to instantiate modules at
concrete inputs. -/

/-- All-zero `Linear`. -/
def zeroLinearP (m n : ℕ) : LinearP m n := ⟨fun _ _ => 0, fun _ => 0⟩

/-- All-zero bias-free `Linear`. -/
def zeroLinearNB (m n : ℕ) : LinearNB m n := ⟨fun _ _ => 0⟩

/-- LayerNorm parameters at their initialisation `γ = 1`, `β = 0`. -/
def initLNP (n : ℕ) : LNP n := ⟨fun _ => 1, fun _ => 0⟩

/-- Zero `out_proj` of the appropriate optional shape. -/
def zeroGRNproj (inp : ℕ) : (os : Option ℕ) → GRNproj inp os
  | none => ()
  | some o => zeroLinearP inp o

/-- All-zero `GRN`. -/
def zeroGRN (inp hid ctx : ℕ) (os : Option ℕ) : GRN inp hid ctx os :=
  { lin_a := zeroLinearP inp hid
    lin_c := zeroLinearNB ctx hid
    lin_i := zeroLinearP hid hid
    glu := ⟨zeroLinearP hid (GRNout hid os + GRNout hid os)⟩
    out_proj := zeroGRNproj inp os
    ln := initLNP (GRNout hid os) }

/-- All-zero `VSN`. -/
def zeroVSN (H N : ℕ) : VSN H N :=
  ⟨zeroGRN (H * N) H H (some N), fun _ => zeroGRN H H H none⟩

/-- Softmax weights are nonnegative and sum to `1` on a nonempty axis. -/
theorem softmax_sum_eq_one {n : ℕ} (hn : 0 < n) (v : Fin n → ℝ) :
    ∑ i, softmax v i = 1 := by
  have hpos : 0 < ∑ j, Real.exp (v j) := by
    refine Finset.sum_pos (fun j _ => Real.exp_pos (v j)) ?_
    exact Finset.univ_nonempty_iff.mpr (Fin.pos_iff_nonempty.mp hn)
  unfold softmax
  rw [← Finset.sum_div]
  exact div_self (ne_of_gt hpos)

/-- C2: for every valid input stack of `N ≥ 1` per-variable embeddings and
any optional context, the selection-weight vector returned by
`VariableSelectionNetwork.forward` sums to `1` along the variable axis
(pointwise in every batch element and timestep, which the network treats
elementwise); in particular when `N = 1` the single weight equals `1`. -/
theorem vsn_selection_weights_sum_one {H N : ℕ} (hN : 0 < N) (v : VSN H N)
    (x : Fin N → Fin H → ℝ) (context : Option (Fin H → ℝ)) :
    (∑ i, (v.forward x context).2 i = 1) ∧
    (∀ (w : VSN H 1) (y : Fin 1 → Fin H → ℝ) (c : Option (Fin H → ℝ)) (i : Fin 1),
      (w.forward y c).2 i = 1) := by
  constructor
  · exact softmax_sum_eq_one hN _
  · intro w y c i
    have hsum := softmax_sum_eq_one Nat.one_pos
      (w.joint_grn.forward (fun h => nomatch h) (flattenVars y) c)
    rw [Fin.sum_univ_one] at hsum
    have hi : i = 0 := Fin.eq_zero i
    rw [hi]
    exact hsum

/-- Witness for C2 at a concrete all-zero `VSN` with `H = N = 1`. -/
theorem vsn_selection_weights_sum_one_witness :
    0 < 1 ∧
    ((∑ i, ((zeroVSN 1 1).forward (fun _ _ => 0) none).2 i = 1) ∧
      (∀ (w : VSN 1 1) (y : Fin 1 → Fin 1 → ℝ) (c : Option (Fin 1 → ℝ)) (i : Fin 1),
        (w.forward y c).2 i = 1)) :=
  ⟨Nat.one_pos,
    vsn_selection_weights_sum_one Nat.one_pos (zeroVSN 1 1) (fun _ _ => 0) none⟩

/-! ## C5: the GRN residual branch and the conditional layer normalization -/

/-- A `GRN` with `input_size = 1` and `output_size = 1` explicitly given
(sizes match), whose `out_proj` doubles its input — refuting the reading
that matching sizes yield an identity residual. -/
def doubledProjGRN : GRN 1 1 1 (some 1) :=
  { lin_a := zeroLinearP 1 1
    lin_c := zeroLinearNB 1 1
    lin_i := zeroLinearP 1 1
    glu := ⟨zeroLinearP 1 2⟩
    out_proj := (⟨fun _ _ => 2, fun _ => 0⟩ : LinearP 1 1)
    ln := initLNP 1 }

/-- C5 counterexample: a GRN whose `input_size` equals its `output_size`
(both `1`) but whose residual branch is the learned `out_proj`, not the
identity: on the input `1` the residual branch yields `2 ≠ 1`. The code
keys the identity residual on `output_size` being unspecified (`None`),
not on size equality. -/
theorem grn_residual_not_identity_on_matching_sizes :
    GRNout 1 (some 1) = 1 ∧
    GRN.residualBranch (some 1) doubledProjGRN (fun h => nomatch h)
      (fun _ => 1) (0 : Fin 1) ≠ (fun (_ : Fin 1) => (1 : ℝ)) 0 := by
  refine ⟨rfl, ?_⟩
  show (∑ i : Fin 1, (2 : ℝ) * 1) + 0 ≠ 1
  norm_num

/-- C5 amended: the residual branch added to the GLU output is the
identity of the input exactly when `output_size` is unspecified (`None` —
then the effective output size is `hidden_size` and well-formedness of the
addition forces `input_size = hidden_size`), and is the learned
`input_size → output_size` linear `out_proj` whenever `output_size` is
specified, even when it equals `input_size`; the final layer normalization
is applied unless `output_size == 1`. -/
theorem grn_residual_and_layernorm_rule {inp hid ctx : ℕ} :
    (∀ (g : GRN inp hid ctx none) (hsh : none = none → inp = hid)
        (a : Fin inp → ℝ) (i : Fin (GRNout hid none)),
      GRN.residualBranch none g hsh a i = a (Fin.cast (hsh rfl).symm i)) ∧
    (∀ (o : ℕ) (g : GRN inp hid ctx (some o))
        (hsh : some o = none → inp = hid) (a : Fin inp → ℝ),
      GRN.residualBranch (some o) g hsh a = g.out_proj.apply a) ∧
    (∀ (p : LNP (GRNout hid (some 1))) (x : Fin (GRNout hid (some 1)) → ℝ),
      maybeLayerNorm (some 1) p x = x) ∧
    (∀ (os : Option ℕ), os ≠ some 1 →
      ∀ (p : LNP (GRNout hid os)) (x : Fin (GRNout hid os) → ℝ),
      maybeLayerNorm os p x = layerNorm 1e-3 p x) := by
  refine ⟨fun g hsh a i => rfl, fun o g hsh a => rfl, fun p x => rfl, ?_⟩
  intro os hne p x
  unfold maybeLayerNorm
  rw [if_neg hne]

/-- Witness for the amended C5 at concrete instances: the `none` case at
an all-zero GRN, and the layer-norm rule at `output_size = some 2`. -/
theorem grn_residual_and_layernorm_rule_witness :
    (GRN.residualBranch none (zeroGRN 1 1 1 none) (fun _ => rfl)
        (fun _ => 5) (0 : Fin 1) = (fun (_ : Fin 1) => (5 : ℝ)) (Fin.cast rfl 0)) ∧
    ((some 2 : Option ℕ) ≠ some 1) ∧
    (@maybeLayerNorm 1 (some 2) (initLNP 2) (fun _ => 3) =
      layerNorm 1e-3 (initLNP 2) (fun _ => 3)) := by
  refine ⟨?_, by decide, ?_⟩
  · exact (@grn_residual_and_layernorm_rule 1 1 1).1
      (zeroGRN 1 1 1 none) (fun _ => rfl) (fun _ => 5) (0 : Fin 1)
  · exact (@grn_residual_and_layernorm_rule 1 1 1).2.2.2
      (some 2) (by decide) (initLNP 2) (fun _ => 3)

/-! ## InterpretableMultiHeadAttention (tft.py lines 196-248)

Scores live in `WithBot ℝ`: `⊥` plays the role of the float `-inf`
written into the mask buffer, with `s + (-inf) = -inf` and
`exp (-inf) = 0` — exactly the IEEE behaviour the code relies on. -/

/-- `exp` extended to `WithBot ℝ` with `exp ⊥ = 0` (float `exp(-inf) = 0.0`). -/
def expB : WithBot ℝ → ℝ := fun e => WithBot.recBotCoe 0 Real.exp e

/-- The mask buffer
`torch.triu(torch.full((T, T), float("-inf")), 1)`: strictly upper
triangular entries (`i < j`) are `-inf`, the rest are `0`. -/
def causalMask (T : ℕ) : Fin T → Fin T → WithBot ℝ :=
  fun i j => if i < j then ⊥ else 0

/-- Parameters of `InterpretableMultiHeadAttention` with `n_head = M`,
`hidden_size = H`, `d_head = H / M`. The single
`Linear(hidden_size, (2*n_head+1)*d_head, bias=False)` `qkv_linears` is
represented by the row blocks its output is `split` into: `M` query
blocks, `M` key blocks, and the one shared value block. `out_proj` is
`Linear(d_head, hidden_size, bias=False)`. -/
structure IMHAParams (M H : ℕ) where
  wq : Fin M → Fin (H / M) → Fin H → ℝ
  wk : Fin M → Fin (H / M) → Fin H → ℝ
  wv : Fin (H / M) → Fin H → ℝ
  wout : Fin H → Fin (H / M) → ℝ

/-- An `InterpretableMultiHeadAttention` instance: its parameters and its
`_mask` buffer registered at construction over `example_length = T`. -/
structure IMHA (M H T : ℕ) where
  params : IMHAParams M H
  mask : Fin T → Fin T → WithBot ℝ

/-- `InterpretableMultiHeadAttention.__init__`: fails unless
`hidden_size % n_head == 0` (the `assert`; `n_head = 0` also fails, as
Python's `%` raises on a zero modulus), and registers the causal mask
buffer of side `example_length`. -/
def IMHA.init (M H T : ℕ) (p : IMHAParams M H) : Option (IMHA M H T) :=
  if 0 < M ∧ H % M = 0 then some ⟨p, causalMask T⟩ else none

/-- Per-head queries: `q.view(bs, t, n_head, d_head)` (per batch element). -/
def IMHA.q {M H T : ℕ} (a : IMHA M H T) (x : Fin T → Fin H → ℝ) :
    Fin T → Fin M → Fin (H / M) → ℝ :=
  fun t m d => ∑ h, a.params.wq m d h * x t h

/-- Per-head keys. -/
def IMHA.k {M H T : ℕ} (a : IMHA M H T) (x : Fin T → Fin H → ℝ) :
    Fin T → Fin M → Fin (H / M) → ℝ :=
  fun t m d => ∑ h, a.params.wk m d h * x t h

/-- Shared values: `v.view(bs, t, d_head)` — a single value projection
common to all heads. -/
def IMHA.v {M H T : ℕ} (a : IMHA M H T) (x : Fin T → Fin H → ℝ) :
    Fin T → Fin (H / M) → ℝ :=
  fun t d => ∑ h, a.params.wv d h * x t h

/-- Raw attention scores `attn_score.mul_(self.scale)` with
`scale = d_head ** -0.5`. -/
def IMHA.attnScore {M H T : ℕ} (a : IMHA M H T) (x : Fin T → Fin H → ℝ) :
    Fin M → Fin T → Fin T → ℝ :=
  fun m i j =>
    (∑ d, a.q x i m d * a.k x j m d) * ((H / M : ℕ) : ℝ) ^ (-(1 / 2 : ℝ))

/-- Scores after the optional mask addition
`attn_score = attn_score + self._mask`. -/
def IMHA.maskedScore {M H T : ℕ} (a : IMHA M H T) (x : Fin T → Fin H → ℝ)
    (maskFutureTimesteps : Bool) : Fin M → Fin T → Fin T → WithBot ℝ :=
  fun m i j =>
    if maskFutureTimesteps then (a.attnScore x m i j : WithBot ℝ) + a.mask i j
    else (a.attnScore x m i j : WithBot ℝ)

/-- `attn_prob = F.softmax(attn_score, dim=3)` (eval mode, so
`attn_dropout` is the identity). -/
def IMHA.attnProb {M H T : ℕ} (a : IMHA M H T) (x : Fin T → Fin H → ℝ)
    (mf : Bool) : Fin M → Fin T → Fin T → ℝ :=
  fun m i j =>
    expB (a.maskedScore x mf m i j) / ∑ j', expB (a.maskedScore x mf m i j')

/-- `attn_vec = torch.matmul(attn_prob, v.unsqueeze(1))`. -/
def IMHA.attnVec {M H T : ℕ} (a : IMHA M H T) (x : Fin T → Fin H → ℝ)
    (mf : Bool) : Fin M → Fin T → Fin (H / M) → ℝ :=
  fun m i d => ∑ j, a.attnProb x mf m i j * a.v x j d

/-- `InterpretableMultiHeadAttention.forward` in eval mode: the projected
head-averaged output and the raw per-head weighted value tensor. -/
def IMHA.forward {M H T : ℕ} (a : IMHA M H T) (x : Fin T → Fin H → ℝ)
    (mf : Bool) :
    (Fin T → Fin H → ℝ) × (Fin M → Fin T → Fin (H / M) → ℝ) :=
  let m_attn_vec : Fin T → Fin (H / M) → ℝ :=
    fun i d => (∑ m, a.attnVec x mf m i d) / M
  (fun i h => ∑ d, a.params.wout h d * m_attn_vec i d, a.attnVec x mf)

@[simp] theorem expB_bot : expB ⊥ = 0 := rfl

@[simp] theorem expB_coe (x : ℝ) : expB (x : WithBot ℝ) = Real.exp x := rfl

/-- A successfully constructed attention instance carries the given
parameters and the causal mask buffer. -/
theorem IMHA.init_eq {M H T : ℕ} {p : IMHAParams M H} {a : IMHA M H T}
    (ha : IMHA.init M H T p = some a) : a = ⟨p, causalMask T⟩ := by
  unfold IMHA.init at ha
  split at ha
  · exact (Option.some.inj ha).symm
  · exact absurd ha (by simp)

/-- With the causal mask, the exponentiated masked score vanishes
strictly above the diagonal and is the plain exponentiated score
elsewhere. -/
theorem expB_maskedScore {M H T : ℕ} (a : IMHA M H T)
    (hm : a.mask = causalMask T) (x : Fin T → Fin H → ℝ)
    (m : Fin M) (i j : Fin T) :
    expB (a.maskedScore x true m i j) =
      if i < j then 0 else Real.exp (a.attnScore x m i j) := by
  unfold IMHA.maskedScore
  rw [hm]
  unfold causalMask
  by_cases h : i < j
  · rw [if_pos h, if_pos h, if_pos rfl]
    rw [WithBot.add_bot]
    exact expB_bot
  · rw [if_neg h, if_pos rfl, if_neg h, add_zero, expB_coe]

/-- Attention scores only read the input at the query and key positions. -/
theorem attnScore_congr {M H T : ℕ} (a : IMHA M H T)
    (x x' : Fin T → Fin H → ℝ) (m : Fin M) (i j : Fin T)
    (hi : x i = x' i) (hj : x j = x' j) :
    a.attnScore x m i j = a.attnScore x' m i j := by
  unfold IMHA.attnScore IMHA.q IMHA.k
  rw [hi, hj]

/-- C1: for the interpretable multi-head attention constructed by
`IMHA.init` (so with the causal mask registered), run in eval mode with
`mask_future_timesteps = True`: for every pair of positions `i < j`, the
attention output at position `i` is unchanged under an arbitrary
perturbation of the input at position `j` — no information flows from
later to earlier positions. -/
theorem imha_causal_mask_no_future_leak {M H T : ℕ} (p : IMHAParams M H)
    (a : IMHA M H T) (ha : IMHA.init M H T p = some a)
    (x x' : Fin T → Fin H → ℝ) (i j : Fin T) (hij : i < j)
    (hx : ∀ t, t ≠ j → x t = x' t) :
    (a.forward x true).1 i = (a.forward x' true).1 i := by
  obtain rfl : a = ⟨p, causalMask T⟩ := IMHA.init_eq ha
  set A : IMHA M H T := ⟨p, causalMask T⟩ with hA
  have hmask : A.mask = causalMask T := rfl
  have hxi : x i = x' i := hx i (ne_of_lt hij)
  have hscore : ∀ (m : Fin M) (j' : Fin T), ¬ i < j' →
      A.attnScore x m i j' = A.attnScore x' m i j' := by
    intro m j' hj'
    refine attnScore_congr A x x' m i j' hxi (hx j' ?_)
    intro he
    exact hj' (he ▸ hij)
  have hexp : ∀ (m : Fin M) (j' : Fin T),
      expB (A.maskedScore x true m i j') = expB (A.maskedScore x' true m i j') := by
    intro m j'
    rw [expB_maskedScore A hmask x, expB_maskedScore A hmask x']
    by_cases h : i < j'
    · rw [if_pos h, if_pos h]
    · rw [if_neg h, if_neg h, hscore m j' h]
  have hprob : ∀ (m : Fin M) (j' : Fin T),
      A.attnProb x true m i j' = A.attnProb x' true m i j' := by
    intro m j'
    unfold IMHA.attnProb
    rw [hexp m j']
    congr 1
    exact Finset.sum_congr rfl fun j'' _ => hexp m j''
  have hprob_hi : ∀ (m : Fin M) (j' : Fin T), i < j' →
      A.attnProb x true m i j' = 0 := by
    intro m j' h
    unfold IMHA.attnProb
    rw [expB_maskedScore A hmask x, if_pos h, zero_div]
  have hprob_hi' : ∀ (m : Fin M) (j' : Fin T), i < j' →
      A.attnProb x' true m i j' = 0 := by
    intro m j' h
    unfold IMHA.attnProb
    rw [expB_maskedScore A hmask x', if_pos h, zero_div]
  have hvec : ∀ (m : Fin M) (d : Fin (H / M)),
      A.attnVec x true m i d = A.attnVec x' true m i d := by
    intro m d
    unfold IMHA.attnVec
    refine Finset.sum_congr rfl fun j' _ => ?_
    by_cases h : i < j'
    · rw [hprob_hi m j' h, hprob_hi' m j' h, zero_mul, zero_mul]
    · rw [hprob m j']
      have hxj' : x j' = x' j' := hx j' fun he => h (he ▸ hij)
      congr 1
      unfold IMHA.v
      rw [hxj']
  show (fun h => ∑ d, A.params.wout h d * ((∑ m, A.attnVec x true m i d) / M)) =
    fun h => ∑ d, A.params.wout h d * ((∑ m, A.attnVec x' true m i d) / M)
  funext h
  refine Finset.sum_congr rfl fun d _ => ?_
  rw [Finset.sum_congr rfl fun m _ => hvec m d]

/-- All-zero attention parameters with one head over a hidden size of one. -/
def wIMHAParams : IMHAParams 1 1 :=
  ⟨fun _ _ _ => 0, fun _ _ _ => 0, fun _ _ => 0, fun _ _ => 0⟩

/-- The constructed single-head attention over `example_length = 2`. -/
def wIMHA : IMHA 1 1 2 := ⟨wIMHAParams, causalMask 2⟩

theorem wIMHA_init : IMHA.init 1 1 2 wIMHAParams = some wIMHA := by
  unfold IMHA.init
  rw [if_pos ⟨Nat.one_pos, rfl⟩]
  rfl

/-- Input perturbed only at position `1`. -/
def wPerturbed : Fin 2 → Fin 1 → ℝ := fun t _ => if t = 1 then 1 else 0

/-- Witness for C1 at a two-step timeline: perturbing position `1` leaves
the attention output at position `0` unchanged. -/
theorem imha_causal_mask_no_future_leak_witness :
    (0 : Fin 2) < 1 ∧
    (wIMHA.forward (fun _ _ => 0) true).1 0 = (wIMHA.forward wPerturbed true).1 0 := by
  refine ⟨by decide, ?_⟩
  refine imha_causal_mask_no_future_leak wIMHAParams wIMHA wIMHA_init
    (fun _ _ => 0) wPerturbed 0 1 (by decide) ?_
  intro t ht
  funext h
  unfold wPerturbed
  rw [if_neg ht]

/-- C8: constructing the interpretable multi-head attention with a head
count `M ≥ 1` succeeds exactly when `hidden_size` is divisible by the
head count (`assert hidden_size % n_head == 0`). -/
theorem imha_init_succeeds_iff_divisible {M H T : ℕ} (p : IMHAParams M H)
    (hM : 0 < M) :
    (IMHA.init M H T p).isSome = true ↔ H % M = 0 := by
  unfold IMHA.init
  by_cases h : H % M = 0
  · rw [if_pos ⟨hM, h⟩]
    simp [h]
  · rw [if_neg fun hc => h hc.2]
    simp [h]

/-- Witness for C8 at the spec's end-to-end configuration
`hidden_size = 128`, `n_head = 4`, `example_length = 36 + 18`. -/
theorem imha_init_succeeds_iff_divisible_witness :
    0 < 4 ∧
    ((IMHA.init 4 128 54
        ⟨fun _ _ _ => 0, fun _ _ _ => 0, fun _ _ => 0, fun _ _ => 0⟩).isSome = true ↔
      128 % 4 = 0) :=
  ⟨Nat.succ_pos 3,
    imha_init_succeeds_iff_divisible
      ⟨fun _ _ _ => 0, fun _ _ _ => 0, fun _ _ => 0, fun _ _ => 0⟩ (Nat.succ_pos 3)⟩

/-! ## C10: the mask buffer's shape and PyTorch broadcasting of the
masked score addition -/

/-- One axis pair is broadcast-compatible when the extents agree or one
of them is `1` (PyTorch broadcasting semantics). -/
def dimOK (a b : ℕ) : Bool := a == b || a == 1 || b == 1

/-- Broadcast compatibility of right-aligned shape lists (arguments
already reversed, so heads are the trailing axes). -/
def broadcastableRev : List ℕ → List ℕ → Bool
  | [], _ => true
  | _ :: _, [] => true
  | a :: as, b :: bs => dimOK a b && broadcastableRev as bs

/-- PyTorch broadcast compatibility of two shapes. -/
def broadcastable (s1 s2 : List ℕ) : Bool :=
  broadcastableRev s1.reverse s2.reverse

/-- Shape of the registered `_mask` buffer after `unsqueeze(0)`:
`[1, example_length, example_length]`. -/
def maskBufferShape (T : ℕ) : List ℕ := [1, T, T]

/-- Shape of `attn_score` for an input with time dimension `t`:
`[bs, n_head, t, t]`. -/
def attnScoreShape (B M t : ℕ) : List ℕ := [B, M, t, t]

/-- Whether `attn_score + self._mask` is defined (broadcastable). -/
def maskAddDefined (B M t T : ℕ) : Bool :=
  broadcastable (attnScoreShape B M t) (maskBufferShape T)

/-- C10 counterexample: with `example_length = 2` and an input of time
length `t = 1 ≠ 2`, the masked score addition does NOT fail — the
`[B, M, 1, 1]` score broadcasts against the `[1, 2, 2]` buffer — refuting
the claim that every `t ≠ example_length` fails at the addition. -/
theorem mask_add_broadcast_cex :
    maskAddDefined 3 4 1 2 = true ∧ (1 : ℕ) ≠ 2 := by
  exact ⟨by decide, by decide⟩

/-- C10 amended: the mask is a fixed `[example_length, example_length]`
buffer registered at construction (conjunct one), and with
`mask_future_timesteps = True` the masked score addition is defined
exactly when the input time length `t` satisfies
`t = example_length ∨ t = 1 ∨ example_length = 1`; hence it fails on a
shape mismatch for every `t` outside `{1, example_length}` (when
`example_length > 1`), while `t = 1` broadcasts silently. -/
theorem imha_mask_fixed_and_broadcast_rule {M H T : ℕ} :
    (∀ (p : IMHAParams M H) (a : IMHA M H T),
      IMHA.init M H T p = some a → a.mask = causalMask T) ∧
    (∀ B Mh t, maskAddDefined B Mh t T = true ↔ (t = T ∨ t = 1 ∨ T = 1)) := by
  constructor
  · intro p a ha
    rw [IMHA.init_eq ha]
  · intro B Mh t
    simp only [maskAddDefined, broadcastable, attnScoreShape, maskBufferShape,
      List.reverse_cons, List.reverse_nil, List.nil_append, List.cons_append,
      broadcastableRev, dimOK, Bool.and_eq_true, Bool.or_eq_true, beq_iff_eq]
    tauto

/-- Witness for the amended C10: a constructed instance carries the
causal mask, and the broadcast rule evaluated at `t = T = 2`. -/
theorem imha_mask_fixed_and_broadcast_rule_witness :
    wIMHA.mask = causalMask 2 ∧
    (maskAddDefined 3 4 2 2 = true ↔ ((2 : ℕ) = 2 ∨ (2 : ℕ) = 1 ∨ (2 : ℕ) = 1)) :=
  ⟨(imha_mask_fixed_and_broadcast_rule (M := 1) (H := 1)).1 wIMHAParams wIMHA wIMHA_init,
    (imha_mask_fixed_and_broadcast_rule (M := 1) (H := 1) (T := 2)).2 3 4 2⟩

/-! ## C3: TFT synthesises the future-exogenous input when absent
(tft.py lines 552-554) -/

/-- `y_insample[:, [-1]]`: the last observed insample row, kept as a
length-one time axis. Requires a nonempty insample window (`0 < L`), as
Python's `-1` index does. -/
def tftLastInsample {B L Z : ℕ} (hL : 0 < L)
    (y : Fin B → Fin L → Fin Z → ℝ) : Fin B → Fin 1 → Fin Z → ℝ :=
  fun b _ z => y b ⟨L - 1, by omega⟩ z

/-- `t.repeat(1, n, 1)` on a tensor whose time axis has extent `1`:
tiling indexes the source at `t % 1`. -/
def torchRepeatTime {B Z : ℕ} (n : ℕ) (x : Fin B → Fin 1 → Fin Z → ℝ) :
    Fin B → Fin n → Fin Z → ℝ :=
  fun b t z => x b ⟨t.val % 1, Nat.mod_lt _ Nat.one_pos⟩ z

/-- The synthesized future-exogenous tensor of `TFT.forward` when
`futr_exog is None`: the last insample row repeated over
`example_length = input_size + h` timesteps, with the target's `Z`
feature columns (`Z = tgt_size`; in the configuration where `futr_exog`
is absent, `K = max(futr_exog_size, 1) = 1 = Z` for the default
univariate target). -/
def tftSynthFutrExog {B L Z : ℕ} (h : ℕ) (hL : 0 < L)
    (y : Fin B → Fin L → Fin Z → ℝ) : Fin B → Fin (L + h) → Fin Z → ℝ :=
  torchRepeatTime (L + h) (tftLastInsample hL y)

/-- The future-exogenous tensor actually consumed by `TFT.forward`: the
given one when present, the synthesized fallback when `None`. -/
def tftFutrExogUsed {B L Z : ℕ} (h : ℕ) (hL : 0 < L)
    (futr_exog : Option (Fin B → Fin (L + h) → Fin Z → ℝ))
    (y : Fin B → Fin L → Fin Z → ℝ) : Fin B → Fin (L + h) → Fin Z → ℝ :=
  match futr_exog with
  | some f => f
  | none => tftSynthFutrExog h hL y

/-- C3: when the batch has `futr_exog == None`, `TFT.forward` uses the
synthesized tensor of shape `[B, input_size + h, Z]` (enforced by its
type) in which every timestep equals the last observed insample row. -/
theorem tft_synthesizes_futr_exog {B L Z : ℕ} (h : ℕ) (hL : 0 < L)
    (y : Fin B → Fin L → Fin Z → ℝ) :
    tftFutrExogUsed h hL none y = tftSynthFutrExog h hL y ∧
    ∀ (b : Fin B) (t : Fin (L + h)) (z : Fin Z),
      tftSynthFutrExog h hL y b t z = y b ⟨L - 1, by omega⟩ z := by
  exact ⟨rfl, fun b t z => rfl⟩

/-- Witness for C3 with `input_size = 3`, `h = 2`: the synthesized value
at batch 0, timestep 4, feature 0 is the last insample value. -/
def wInsample : Fin 1 → Fin 3 → Fin 1 → ℝ := fun _ t _ => (t : ℕ)

theorem tft_synthesizes_futr_exog_witness :
    0 < 3 ∧
    (@tftFutrExogUsed 1 3 1 2 (by decide) none wInsample =
        @tftSynthFutrExog 1 3 1 2 (by decide) wInsample ∧
      ∀ (b : Fin 1) (t : Fin (3 + 2)) (z : Fin 1),
        @tftSynthFutrExog 1 3 1 2 (by decide) wInsample b t z =
          wInsample b ⟨3 - 1, by decide⟩ z) :=
  ⟨by decide, @tft_synthesizes_futr_exog 1 3 1 2 (by decide) wInsample⟩

/-! ## The LSTM encoders and the TemporalCovariateEncoder
(tft.py lines 277-313) -/

/-- One gate block of a `torch.nn.LSTM` layer: the rows of
`weight_ih_l0` / `weight_hh_l0` (and both biases) belonging to one of the
four gates, in the torch gate order `i, f, g, o`. -/
structure LSTMGate (I H : ℕ) where
  wih : Fin H → Fin I → ℝ
  whh : Fin H → Fin H → ℝ
  bih : Fin H → ℝ
  bhh : Fin H → ℝ

/-- Pre-activation of one gate: `W_ih x + b_ih + W_hh h + b_hh`. -/
def LSTMGate.pre {I H : ℕ} (g : LSTMGate I H) (x : Fin I → ℝ)
    (hp : Fin H → ℝ) : Fin H → ℝ :=
  fun o => (∑ i, g.wih o i * x i) + g.bih o + (∑ j, g.whh o j * hp j) + g.bhh o

/-- Parameters of a single-layer `nn.LSTM`. -/
structure LSTMP (I H : ℕ) where
  gi : LSTMGate I H
  gf : LSTMGate I H
  gg : LSTMGate I H
  go : LSTMGate I H

/-- The LSTM cell recurrence. -/
def lstmCell {I H : ℕ} (p : LSTMP I H) (x : Fin I → ℝ)
    (s : (Fin H → ℝ) × (Fin H → ℝ)) : (Fin H → ℝ) × (Fin H → ℝ) :=
  let ig := fun o => sigmoid (p.gi.pre x s.1 o)
  let fg := fun o => sigmoid (p.gf.pre x s.1 o)
  let gg := fun o => Real.tanh (p.gg.pre x s.1 o)
  let og := fun o => sigmoid (p.go.pre x s.1 o)
  let c := fun o => fg o * s.2 o + ig o * gg o
  (fun o => og o * Real.tanh (c o), c)

/-- Running a single-layer `nn.LSTM` (`batch_first`, per batch element)
over a time-indexed list of inputs from an initial `(h, c)` state:
returns the per-step hidden outputs and the terminal `(h, c)` state. -/
def lstmRun {I H : ℕ} (p : LSTMP I H) :
    List (Fin I → ℝ) → ((Fin H → ℝ) × (Fin H → ℝ)) →
    List (Fin H → ℝ) × ((Fin H → ℝ) × (Fin H → ℝ))
  | [], s => ([], s)
  | x :: xs, s =>
    let s' := lstmCell p x s
    let r := lstmRun p xs s'
    (s'.1 :: r.1, r.2)

/-- Splitting one continuous LSTM run: the run over `xs ++ ys` is the run
over `xs` followed by the run over `ys` started from the terminal state of
the first. -/
theorem lstmRun_append {I H : ℕ} (p : LSTMP I H) (xs ys : List (Fin I → ℝ))
    (s : (Fin H → ℝ) × (Fin H → ℝ)) :
    lstmRun p (xs ++ ys) s =
      ((lstmRun p xs s).1 ++ (lstmRun p ys (lstmRun p xs s).2).1,
        (lstmRun p ys (lstmRun p xs s).2).2) := by
  induction xs generalizing s with
  | nil => simp [lstmRun]
  | cons x xs ih => simp [lstmRun, ih]

/-- `TemporalCovariateEncoder` of tft.py. -/
structure TCE (H nHist nFut : ℕ) where
  history_vsn : VSN H nHist
  history_encoder : LSTMP H H
  future_vsn : VSN H nFut
  future_encoder : LSTMP H H
  input_gate : GLU H H
  input_gate_ln : LNP H

/-- `historical_features, _ = self.history_vsn(historical_inputs, cs)`
(per batch element; time as a list). -/
def TCE.histFeatures {H nHist nFut : ℕ} (t : TCE H nHist nFut)
    (historical_inputs : List (Fin nHist → Fin H → ℝ)) (cs : Fin H → ℝ) :
    List (Fin H → ℝ) :=
  historical_inputs.map fun xt => (t.history_vsn.forward xt (some cs)).1

/-- `future_features, _ = self.future_vsn(future_inputs, cs)`. -/
def TCE.futFeatures {H nHist nFut : ℕ} (t : TCE H nHist nFut)
    (future_inputs : List (Fin nFut → Fin H → ℝ)) (cs : Fin H → ℝ) :
    List (Fin H → ℝ) :=
  future_inputs.map fun xt => (t.future_vsn.forward xt (some cs)).1

/-- `history, state = self.history_encoder(historical_features, (ch, cc))`. -/
def TCE.histRun {H nHist nFut : ℕ} (t : TCE H nHist nFut)
    (historical_inputs : List (Fin nHist → Fin H → ℝ)) (cs ch cc : Fin H → ℝ) :
    List (Fin H → ℝ) × ((Fin H → ℝ) × (Fin H → ℝ)) :=
  lstmRun t.history_encoder (t.histFeatures historical_inputs cs) (ch, cc)

/-- `future, _ = self.future_encoder(future_features, state)` — started
from the `state` returned by the historical encoder. -/
def TCE.futRun {H nHist nFut : ℕ} (t : TCE H nHist nFut)
    (historical_inputs : List (Fin nHist → Fin H → ℝ))
    (future_inputs : List (Fin nFut → Fin H → ℝ)) (cs ch cc : Fin H → ℝ) :
    List (Fin H → ℝ) × ((Fin H → ℝ) × (Fin H → ℝ)) :=
  lstmRun t.future_encoder (t.futFeatures future_inputs cs)
    (t.histRun historical_inputs cs ch cc).2

/-- `TemporalCovariateEncoder.forward`: concatenate the encoder outputs
along time, gate through the GLU, add the pre-recurrence VSN features
(skip connection) and layer-normalise. -/
def TCE.forward {H nHist nFut : ℕ} (t : TCE H nHist nFut)
    (historical_inputs : List (Fin nHist → Fin H → ℝ))
    (future_inputs : List (Fin nFut → Fin H → ℝ)) (cs ch cc : Fin H → ℝ) :
    List (Fin H → ℝ) :=
  let input_embedding :=
    t.histFeatures historical_inputs cs ++ t.futFeatures future_inputs cs
  let temporal_features :=
    (t.histRun historical_inputs cs ch cc).1 ++
      (t.futRun historical_inputs future_inputs cs ch cc).1
  let gated := temporal_features.map t.input_gate.forward
  let summed := List.zipWith (fun a b => fun o => a o + b o) gated input_embedding
  summed.map (layerNorm 1e-3 t.input_gate_ln)

/-- C6: in every `TemporalCovariateEncoder.forward` pass the future
recurrent encoder starts exactly from the terminal hidden/cell state
produced by the historical encoder on the historical window; moreover a
single LSTM run splits at exactly that state (`lstmRun_append`-style
continuity), so that if the two encoders carried equal weights the pair
of runs would compute one continuous timeline split in two. -/
theorem tce_future_starts_from_history_terminal {H nHist nFut : ℕ}
    (t : TCE H nHist nFut)
    (historical_inputs : List (Fin nHist → Fin H → ℝ))
    (future_inputs : List (Fin nFut → Fin H → ℝ)) (cs ch cc : Fin H → ℝ) :
    (t.futRun historical_inputs future_inputs cs ch cc =
      lstmRun t.future_encoder (t.futFeatures future_inputs cs)
        (lstmRun t.history_encoder (t.histFeatures historical_inputs cs)
          (ch, cc)).2) ∧
    (t.history_encoder = t.future_encoder →
      (t.histRun historical_inputs cs ch cc).1 ++
          (t.futRun historical_inputs future_inputs cs ch cc).1 =
        (lstmRun t.history_encoder
          (t.histFeatures historical_inputs cs ++ t.futFeatures future_inputs cs)
          (ch, cc)).1) := by
  refine ⟨rfl, fun heq => ?_⟩
  rw [lstmRun_append]
  unfold TCE.futRun TCE.histRun
  rw [← heq]

/-- All-zero LSTM gate block. -/
def zeroLSTMGate (I H : ℕ) : LSTMGate I H :=
  ⟨fun _ _ => 0, fun _ _ => 0, fun _ => 0, fun _ => 0⟩

/-- All-zero LSTM. -/
def zeroLSTMP (I H : ℕ) : LSTMP I H :=
  ⟨zeroLSTMGate I H, zeroLSTMGate I H, zeroLSTMGate I H, zeroLSTMGate I H⟩

/-- A concrete `TemporalCovariateEncoder` whose two recurrent encoders
carry equal (all-zero) weights. -/
def wTCE : TCE 1 1 1 :=
  ⟨zeroVSN 1 1, zeroLSTMP 1 1, zeroVSN 1 1, zeroLSTMP 1 1,
    ⟨zeroLinearP 1 2⟩, initLNP 1⟩

/-- Witness for C6 at a concrete encoder with a one-step historical and
a one-step future window. -/
theorem tce_future_starts_from_history_terminal_witness :
    (wTCE.futRun [fun _ _ => 0] [fun _ _ => 1] (fun _ => 0) (fun _ => 0)
        (fun _ => 0) =
      lstmRun wTCE.future_encoder (wTCE.futFeatures [fun _ _ => 1] (fun _ => 0))
        (lstmRun wTCE.history_encoder
          (wTCE.histFeatures [fun _ _ => 0] (fun _ => 0))
          (fun _ => 0, fun _ => 0)).2) ∧
    ((wTCE.histRun [fun _ _ => 0] (fun _ => 0) (fun _ => 0) (fun _ => 0)).1 ++
        (wTCE.futRun [fun _ _ => 0] [fun _ _ => 1] (fun _ => 0) (fun _ => 0)
          (fun _ => 0)).1 =
      (lstmRun wTCE.history_encoder
        (wTCE.histFeatures [fun _ _ => 0] (fun _ => 0) ++
          wTCE.futFeatures [fun _ _ => 1] (fun _ => 0))
        (fun _ => 0, fun _ => 0)).1) :=
  ⟨(tce_future_starts_from_history_terminal wTCE [fun _ _ => 0] [fun _ _ => 1]
      (fun _ => 0) (fun _ => 0) (fun _ => 0)).1,
    (tce_future_starts_from_history_terminal wTCE [fun _ _ => 0] [fun _ _ => 1]
      (fun _ => 0) (fun _ => 0) (fun _ => 0)).2 rfl⟩

/-! ## SOFTS: the STAD module (softs.py lines 39-80)

`F.gelu` has no closed form in this real-valued embedding (it involves the
Gaussian error function); it is carried as an abstract activation
`G : ℝ → ℝ` throughout. None of the claims below depend on its values. -/

/-- Parameters of `STAD(d_series, d_core)`. -/
structure STADP (dSeries dCore : ℕ) where
  gen1 : LinearP dSeries dSeries
  gen2 : LinearP dSeries dCore
  gen3 : LinearP (dSeries + dCore) dSeries
  gen4 : LinearP dSeries dSeries

/-- The "set FFN" stage of `STAD.forward`:
`combined_mean = self.gen2(F.gelu(self.gen1(input)))`, per channel.
(`torch.nan_to_num` before the training softmax is the identity on the
NaN-free reals.) -/
def STADP.coreRep {dS dC C : ℕ} (G : ℝ → ℝ) (p : STADP dS dC)
    (input : Fin C → Fin dS → ℝ) : Fin C → Fin dC → ℝ :=
  fun c => p.gen2.apply fun s => G (p.gen1.apply (input c) s)

/-- Eval-branch pooling of `STAD.forward`:
`weight = F.softmax(combined_mean, dim=1)` (softmax over the channel axis,
per core dimension) and
`torch.sum(combined_mean * weight, dim=1, keepdim=True).repeat(1, channels, 1)` —
the softmax-weighted mean over channels, broadcast to all channels. -/
def evalPool {C K : ℕ} (cm : Fin C → Fin K → ℝ) : Fin C → Fin K → ℝ :=
  fun _ k => ∑ c, cm c k * (Real.exp (cm c k) / ∑ c', Real.exp (cm c' k))

/-- Training-branch pooling of `STAD.forward`: `torch.multinomial` draws
one channel index per (batch element, core dimension) from the
softmax-over-channels distribution — the draw is carried here as the
function `idx` — and `gather`/`repeat` broadcast the drawn channel's core
value to all channels. Every index is in the support since the softmax is
strictly positive. -/
def trainPool {C K : ℕ} (cm : Fin C → Fin K → ℝ) (idx : Fin K → Fin C) :
    Fin C → Fin K → ℝ :=
  fun _ k => cm (idx k) k

/-- The "mlp fusion" tail of `STAD.forward`:
`gen4(F.gelu(gen3(cat([input, combined_mean], -1))))`. -/
def STADP.fuse {dS dC C : ℕ} (G : ℝ → ℝ) (p : STADP dS dC)
    (input : Fin C → Fin dS → ℝ) (pooled : Fin C → Fin dC → ℝ) :
    Fin C → Fin dS → ℝ :=
  fun c => p.gen4.apply fun s => G (p.gen3.apply (Fin.append (input c) (pooled c)) s)

/-- `STAD.forward` with `self.training = False` (eval mode). -/
def STADP.forwardEval {dS dC C : ℕ} (G : ℝ → ℝ) (p : STADP dS dC)
    (input : Fin C → Fin dS → ℝ) : Fin C → Fin dS → ℝ :=
  p.fuse G input (evalPool (p.coreRep G input))

/-- `STAD.forward` with `self.training = True`, given the multinomial
draw `idx`. -/
def STADP.forwardTrain {dS dC C : ℕ} (G : ℝ → ℝ) (p : STADP dS dC)
    (idx : Fin dC → Fin C) (input : Fin C → Fin dS → ℝ) : Fin C → Fin dS → ℝ :=
  p.fuse G input (trainPool (p.coreRep G input) idx)

/-- C4: in eval mode STAD is deterministic and its pooled core equals
exactly the softmax-weighted sum over channels of the per-channel core
representations; in training mode the pooled core is the sampled single
channel's core broadcast to all channels; and the two pooling policies
are different functions (exhibited at a concrete core tensor). -/
theorem stad_mode_dependent_pooling (G : ℝ → ℝ) (dS dC C : ℕ)
    (p : STADP dS dC) (input : Fin C → Fin dS → ℝ) (idx : Fin dC → Fin C) :
    (STADP.forwardEval G p input =
      p.fuse G input fun _ k =>
        ∑ c, p.coreRep G input c k *
          (Real.exp (p.coreRep G input c k) /
            ∑ c', Real.exp (p.coreRep G input c' k))) ∧
    (STADP.forwardTrain G p idx input =
      p.fuse G input fun _ k => p.coreRep G input (idx k) k) ∧
    (∃ (cm : Fin 2 → Fin 1 → ℝ) (ix : Fin 1 → Fin 2),
      trainPool cm ix ≠ evalPool cm) := by
  refine ⟨rfl, rfl, fun c _ => if c = 0 then 0 else 1, fun _ => 0, fun he => ?_⟩
  have h0 := congrFun (congrFun he (0 : Fin 2)) (0 : Fin 1)
  have hT : @trainPool 2 1 (fun c _ => if c = 0 then (0 : ℝ) else 1)
      (fun _ => 0) 0 0 = 0 := by
    simp [trainPool]
  have hE : 0 < @evalPool 2 1 (fun c _ => if c = 0 then (0 : ℝ) else 1) 0 0 := by
    have h1 : (1 : Fin 2) ≠ 0 := by decide
    simp only [evalPool, Fin.sum_univ_two, if_pos rfl, if_neg h1, zero_mul, one_mul,
      zero_add]
    positivity
  rw [hT] at h0
  exact hE.ne' h0.symm

/-! ## SOFTS normalization and forward contract
(softs.py lines 134-266) -/

/-- `x_enc.mean(1, keepdim=True)`: per-series mean over the input window. -/
def timeMean {B T N : ℕ} (x : Fin B → Fin T → Fin N → ℝ) (b : Fin B)
    (n : Fin N) : ℝ :=
  (∑ t, x b t n) / T

/-- `torch.var(x_enc - means, dim=1, unbiased=False)`: the biased
per-series variance over the input window (shifting by the mean leaves
it unchanged, so it is written on the raw input). -/
def timeVar {B T N : ℕ} (x : Fin B → Fin T → Fin N → ℝ) (b : Fin B)
    (n : Fin N) : ℝ :=
  (∑ t, (x b t n - timeMean x b n) ^ 2) / T

/-- `stdev = torch.sqrt(torch.var(..., unbiased=False) + 1e-5)`. -/
def softsStdev {B T N : ℕ} (x : Fin B → Fin T → Fin N → ℝ) (b : Fin B)
    (n : Fin N) : ℝ :=
  Real.sqrt (timeVar x b n + 1e-5)

/-- The `use_norm` normalization of `SOFTS.forecast`:
`x_enc = (x_enc - means) / stdev`. -/
def softsNormalize {B T N : ℕ} (x : Fin B → Fin T → Fin N → ℝ) :
    Fin B → Fin T → Fin N → ℝ :=
  fun b t n => (x b t n - timeMean x b n) / softsStdev x b n

/-- C7: the normalization divisor of `SOFTS.forecast` is strictly
positive for EVERY input (variance is nonnegative and the `1e-5` floor is
added under the square root), so the per-series standard-deviation
division is well-defined; in particular on the all-zero `[2, 10, 1]`
window the divisor is `sqrt 1e-5 > 0` and the normalized tensor is zero.
(In this real-valued idealisation divisor positivity is precisely what
rules out the NaN/Inf the claim mentions.) -/
theorem softs_norm_divisor_positive :
    (∀ (B T N : ℕ) (x : Fin B → Fin T → Fin N → ℝ) (b : Fin B) (n : Fin N),
      0 < softsStdev x b n) ∧
    (∀ (b : Fin 2) (n : Fin 1),
      softsStdev (fun (_ : Fin 2) (_ : Fin 10) (_ : Fin 1) => (0 : ℝ)) b n =
        Real.sqrt 1e-5) ∧
    (∀ (b : Fin 2) (t : Fin 10) (n : Fin 1),
      softsNormalize (fun (_ : Fin 2) (_ : Fin 10) (_ : Fin 1) => (0 : ℝ)) b t n = 0) := by
  have hvar : ∀ (B T N : ℕ) (x : Fin B → Fin T → Fin N → ℝ) (b : Fin B) (n : Fin N),
      0 ≤ timeVar x b n := by
    intro B T N x b n
    refine div_nonneg (Finset.sum_nonneg fun t _ => sq_nonneg _) (Nat.cast_nonneg T)
  refine ⟨?_, ?_, ?_⟩
  · intro B T N x b n
    refine Real.sqrt_pos.mpr (add_pos_of_nonneg_of_pos (hvar B T N x b n) ?_)
    norm_num
  · intro b n
    unfold softsStdev timeVar timeMean
    norm_num
  · intro b t n
    unfold softsNormalize timeMean
    norm_num

/-- The per-channel value embedding of `DataEmbedding_inverted`
(`x.permute(0, 2, 1)` then `Linear(input_size, hidden_size)`; eval-mode
dropout is the identity), together with the rest of `SOFTS`'s
architecture as built by its constructor. The `TransEncoder` stack of
attention-free `TransEncoderLayer`s comes from the external
`common._modules` (not among the provided sources) and is abstracted as
the map `E` in `softsForecast`. -/
structure SOFTSNet (L hz N H oM : ℕ) where
  use_norm : Bool
  enc_embedding : LinearP L H
  projection : LinearP H (hz * oM)

/-- `SOFTS.forecast`: optional reversible instance normalization, channel
embedding, encoder stack `E`, projection to `h * outputsize_multiplier`
per channel, permutation back, and de-normalization by the stored
per-series statistics. -/
def softsForecast {B L hz N H oM : ℕ} (m : SOFTSNet L hz N H oM)
    (E : (Fin N → Fin H → ℝ) → (Fin N → Fin H → ℝ))
    (x_enc : Fin B → Fin L → Fin N → ℝ) : Fin B → Fin (hz * oM) → Fin N → ℝ :=
  let xn : Fin B → Fin L → Fin N → ℝ :=
    if m.use_norm then softsNormalize x_enc else x_enc
  let enc_out : Fin B → Fin N → Fin H → ℝ :=
    fun b n => m.enc_embedding.apply fun t => xn b t n
  let dec_out : Fin B → Fin (hz * oM) → Fin N → ℝ :=
    fun b t n => m.projection.apply (E (enc_out b) n) t
  if m.use_norm then
    fun b t n => dec_out b t n * softsStdev x_enc b n + timeMean x_enc b n
  else dec_out

/-- The `windows_batch` mapping received by `forward`. The three
exogenous fields are carried at arbitrary types. -/
structure SOFTSBatch (B L N : ℕ) (F Hs S : Type) where
  insample_y : Fin B → Fin L → Fin N → ℝ
  futr_exog : F
  hist_exog : Hs
  stat_exog : S

/-- `SOFTS.forward`: reads only `windows_batch["insample_y"]` and calls
`forecast` (the final `.reshape(B, h, -1)` is an index bijection on the
`[B, h*oM, N]` result and is left implicit). -/
def SOFTS.forward {B L hz N H oM : ℕ} {F Hs S : Type} (m : SOFTSNet L hz N H oM)
    (E : (Fin N → Fin H → ℝ) → (Fin N → Fin H → ℝ))
    (wb : SOFTSBatch B L N F Hs S) : Fin B → Fin (hz * oM) → Fin N → ℝ :=
  softsForecast m E wb.insample_y

/-- What `SOFTS.__init__` forwards to the `BaseModel` constructor for the
fields relevant to the exogenous-variable contract. -/
structure BaseModelArgs where
  h : ℕ
  input_size : ℕ
  n_series : ℕ
  stat_exog_list : Option (List String)
  futr_exog_list : Option (List String)
  hist_exog_list : Option (List String)
  exclude_insample_y : Bool

/-- The `super().__init__` call of `SOFTS.__init__`: whatever
`stat_exog_list`, `hist_exog_list`, `futr_exog_list` arguments the caller
provides, it passes `None` for all three. -/
def softsBaseArgs (hz input_size n_series : ℕ)
    (futr_exog_list hist_exog_list stat_exog_list : Option (List String))
    (excl : Bool) : BaseModelArgs :=
  { h := hz
    input_size := input_size
    n_series := n_series
    stat_exog_list := none
    futr_exog_list := none
    hist_exog_list := none
    exclude_insample_y := excl }

/-- C9: the `stat_exog_list`, `hist_exog_list`, `futr_exog_list`
arguments of `SOFTS.__init__` have no effect: the base-class call
receives `None` for all three regardless (so two models differing only in
these arguments are built identically, and with the same seed carry the
same weights), and `SOFTS.forward` reads only `insample_y` from the
batch, so its output is invariant under arbitrary changes to the
exogenous batch fields. -/
theorem softs_exog_lists_have_no_effect :
    (∀ (hz L n : ℕ) (excl : Bool)
        (f1 h1 s1 f2 h2 s2 : Option (List String)),
      softsBaseArgs hz L n f1 h1 s1 excl = softsBaseArgs hz L n f2 h2 s2 excl) ∧
    (∀ (B L hz N H oM : ℕ) (F Hs S : Type) (m : SOFTSNet L hz N H oM)
        (E : (Fin N → Fin H → ℝ) → (Fin N → Fin H → ℝ))
        (wb wb' : SOFTSBatch B L N F Hs S),
      wb.insample_y = wb'.insample_y →
        SOFTS.forward m E wb = SOFTS.forward m E wb') := by
  refine ⟨fun _ _ _ _ _ _ _ _ _ _ => rfl, ?_⟩
  intro B L hz N H oM F Hs S m E wb wb' hy
  unfold SOFTS.forward
  rw [hy]

/-- Witness for C9: two batches equal in `insample_y` but with opposite
`futr_exog`/`hist_exog`/`stat_exog` payloads yield the same forward
output of a concrete all-zero model, and the base-args equation holds at
concrete distinct lists. -/
theorem softs_exog_lists_have_no_effect_witness :
    (softsBaseArgs 1 2 1 (some ["a"]) none (some []) false =
      softsBaseArgs 1 2 1 none (some ["b", "c"]) none false) ∧
    SOFTS.forward (B := 1)
        (⟨true, zeroLinearP 2 3, zeroLinearP 3 (1 * 1)⟩ : SOFTSNet 2 1 1 3 1)
        id ⟨fun _ _ _ => 7, false, false, false⟩ =
      SOFTS.forward
        (⟨true, zeroLinearP 2 3, zeroLinearP 3 (1 * 1)⟩ : SOFTSNet 2 1 1 3 1)
        id ⟨fun _ _ _ => 7, true, true, true⟩ :=
  ⟨softs_exog_lists_have_no_effect.1 1 2 1 false (some ["a"]) none (some [])
      none (some ["b", "c"]) none,
    softs_exog_lists_have_no_effect.2 1 2 1 1 3 1 Bool Bool Bool
      (⟨true, zeroLinearP 2 3, zeroLinearP 3 (1 * 1)⟩ : SOFTSNet 2 1 1 3 1) id
      ⟨fun _ _ _ => 7, false, false, false⟩ ⟨fun _ _ _ => 7, true, true, true⟩ rfl⟩

end NF
